import Mathlib

/-
  Verification development for the DiscoAgent repository: a shallow
  embedding of the message-feed reconciliation and author-attribution
  logic (DiscordAgent.getNewMessages), message chunking
  (DiscordAgent.splitMessage), the assistant invocation retry logic
  (ClaudeAgent.processMessage), session loading (BaseAgent.loadSessions),
  and the per-message dispatch of the orchestration loops.

  JavaScript strings are modelled as Lean String (or List Char for the
  chunking algorithm, where character-level reasoning is needed);
  JavaScript truthiness of nullable strings is modelled explicitly.
  External effects (the DOM snapshot, the child process, the file
  system) enter as explicit inputs or oracle values.
-/

namespace DiscoAgent

/-- A message record extracted from the feed DOM by getNewMessages:
element id, author display name (with the sentinel Unknown when the DOM
offered no username), trimmed text content, the optional id of the
username header element, and a timestamp string. -/
structure Msg where
  id : String
  author : String
  content : String
  usernameElementId : Option String := none
  timestamp : String := ""
deriving DecidableEq

/-- The mutable per-channel monitoring state of the DiscordAgent class:
lastMessageId cursor, lastKnownAuthor fallback, the startup flag, the
configured bot display name, and the configured startup message limit. -/
structure AgentState where
  lastMessageId : Option String := none
  lastKnownAuthor : Option String := none
  isStartup : Bool := true
  botName : String := "ClaudeAgent"
  startupMessageLimit : Int := 3
deriving DecidableEq

/-- JavaScript falsiness of a nullable string value: null or the empty
string are falsy. -/
def optFalsy (o : Option String) : Bool := o.getD "" == ""

/-- The backward scan of the continuation-resolution loop: given the
already-processed records nearest-first, find the author of the first
one whose author is neither Unknown nor the bot name
(part_003 lines 1253-1258). -/
def lookBack (bn : String) (rp : List Msg) : Option String :=
  (rp.find? (fun m => m.author != "Unknown" && m.author != bn)).map (·.author)

/-- The resolved-author candidate for a continuation message: the
backward-scan result, falling back to lastKnownAuthor when the scan
produced nothing truthy and lastKnownAuthor is truthy
(part_003 lines 1250-1263). -/
def contAuthor (bn : String) (rp : List Msg) (lka : Option String) : Option String :=
  let r0 := lookBack bn rp
  if optFalsy r0 && !(optFalsy lka) then lka else r0

/-- One iteration of the resolution loop acting on the message:
a record with author Unknown receives the candidate author when that
candidate is truthy, otherwise it is left unchanged
(part_003 lines 1247-1268). -/
def stepMsg (bn : String) (rp : List Msg) (lka : Option String) (m : Msg) : Msg :=
  if m.author = "Unknown" then
    if optFalsy (contAuthor bn rp lka) then m
    else { m with author := (contAuthor bn rp lka).getD "" }
  else m

/-- One iteration of the resolution loop acting on lastKnownAuthor:
a non-Unknown non-bot author overwrites it, otherwise it is unchanged
(part_003 lines 1269-1272). -/
def stepLka (bn : String) (lka : Option String) (m : Msg) : Option String :=
  if m.author = "Unknown" then lka
  else if m.author ≠ bn then some m.author
  else lka

/-- The in-place continuation-resolution loop of getNewMessages
(part_003 lines 1244-1273): rp is the already-mutated earlier part of
the array in nearest-first order, lka the current lastKnownAuthor.
Returns the mutated remainder and the final lastKnownAuthor. -/
def resolveAux (bn : String) : Option String → List Msg → List Msg → List Msg × Option String
  | lka, _, [] => ([], lka)
  | lka, rp, m :: rest =>
    let m1 := stepMsg bn rp lka m
    let q := resolveAux bn (stepLka bn lka m) (m1 :: rp) rest
    (m1 :: q.1, q.2)

/-- The full resolution pass over a freshly extracted snapshot. -/
def resolveMsgs (bn : String) (lka : Option String) (l : List Msg) : List Msg × Option String :=
  resolveAux bn lka [] l

/-- The startup lastKnownAuthor seeding scan (part_003 lines 1277-1284):
walk the mutated snapshot from the end and take the first author that is
truthy, not Unknown and not the bot. -/
def seedScan (bn : String) (l : List Msg) : Option String :=
  (l.reverse.find? (fun m => m.author != "" && m.author != "Unknown" && m.author != bn)).map
    (·.author)

/-- The emission predicate applied in every windowing branch
(part_003 lines 1303, 1313, 1328): author differs from the bot name and
content is a non-empty string. -/
def emitFilter (bn : String) (m : Msg) : Bool := m.author != bn && m.content != ""

/-- Skip records up to and including the first one whose id equals the
cursor; if the cursor id never occurs, nothing remains
(part_003 lines 1319-1325). -/
def dropThroughId (c : String) : List Msg → List Msg
  | [] => []
  | m :: rest => if m.id = c then rest else dropThroughId c rest

/-- Steady-state windowing: with a falsy cursor every record is new,
otherwise everything after the first occurrence of the cursor id
(part_003 lines 1288, 1317-1332). -/
def newAfterCursor (cursor : Option String) (msgs : List Msg) : List Msg :=
  match cursor with
  | none => msgs
  | some c => if c = "" then msgs else dropThroughId c msgs

/-- The emitted set of one poll, computed from the resolved snapshot
(part_003 lines 1287-1332): the startup branches apply when the startup
flag is set and the cursor is falsy; limit 0 emits nothing, a positive
limit emits the filtered last limit records, a negative limit emits the
whole filtered snapshot; otherwise the steady-state branch filters the
records after the cursor. -/
def computeEmitted (st : AgentState) (msgs : List Msg) : List Msg :=
  if st.isStartup = true ∧ optFalsy st.lastMessageId = true ∧
      0 ≤ st.startupMessageLimit ∧ st.startupMessageLimit < (msgs.length : Int) then
    if st.startupMessageLimit = 0 then []
    else (msgs.drop (msgs.length - st.startupMessageLimit.toNat)).filter (emitFilter st.botName)
  else if st.isStartup = true ∧ optFalsy st.lastMessageId = true ∧
      st.startupMessageLimit < 0 then
    msgs.filter (emitFilter st.botName)
  else
    (newAfterCursor st.lastMessageId msgs).filter (emitFilter st.botName)

/-- One call of DiscordAgent.getNewMessages (part_003 lines 1235-1338)
on the raw extracted snapshot: resolve continuation authors, seed
lastKnownAuthor when still falsy, compute the emitted records, and
advance the cursor to the id of the last record of the full snapshot
when the snapshot is non-empty. -/
def getNewMessages (st : AgentState) (raw : List Msg) : List Msg × AgentState :=
  let r := resolveMsgs st.botName st.lastKnownAuthor raw
  let lka2 :=
    if optFalsy r.2 = true ∧ r.1 ≠ [] then
      match seedScan st.botName r.1 with
      | some a => some a
      | none => r.2
    else r.2
  let newLast :=
    match r.1.getLast? with
    | some m => some m.id
    | none => st.lastMessageId
  (computeEmitted st r.1, { st with lastKnownAuthor := lka2, lastMessageId := newLast })

/-- The invariant claimed for lastKnownAuthor: null, or a string that is
neither Unknown nor the bot name. -/
def lkaOk (bn : String) : Option String → Bool
  | none => true
  | some a => a != "Unknown" && a != bn

/-- Specification-side description of continuation resolution: the
author of the nearest prior processed record whose author is not
Unknown and not the bot, else the stored lastKnownAuthor, else Unknown. -/
def specContinuationAuthor (bn : String) (lka : Option String) (processed : List Msg) : String :=
  match lookBack bn processed.reverse with
  | some a => a
  | none => lka.getD "Unknown"

/- ---------- splitMessage (part_003 lines 1384-1402) ----------
Text is modelled as List Char; a JavaScript string split on the newline
character. -/

/-- text.split of the newline character: accumulate the current line
reversed; every input, including the empty one, yields at least one
line. -/
def splitLinesAux : List Char → List Char → List (List Char)
  | cur, [] => [cur.reverse]
  | cur, c :: cs =>
    if c = '\n' then cur.reverse :: splitLinesAux [] cs
    else splitLinesAux (c :: cur) cs

/-- All lines of a text, in order. -/
def splitLines (t : List Char) : List (List Char) := splitLinesAux [] t

/-- Join a list of lines with single newline characters, the inverse of
splitLines on its image. -/
def joinLines : List (List Char) → List Char
  | [] => []
  | [l] => l
  | l :: ls => l ++ '\n' :: joinLines ls

/-- The accumulation loop of splitMessage (part_003 lines 1391-1400):
when the current chunk plus the next line and a newline would exceed
maxLength, flush the non-empty current chunk and restart from the line;
otherwise append the line, preceded by a newline when the chunk is
non-empty. The final non-empty chunk is flushed. -/
def chunkLoop (maxLength : Nat) : List Char → List (List Char) → List (List Char)
  | cur, [] => if cur.isEmpty then [] else [cur]
  | cur, line :: rest =>
    if maxLength < cur.length + line.length + 1 then
      (if cur.isEmpty then [] else [cur]) ++ chunkLoop maxLength line rest
    else
      chunkLoop maxLength (if cur.isEmpty then line else cur ++ '\n' :: line) rest

/-- DiscordAgent.splitMessage (part_003 lines 1384-1402): a text within
maxLength is returned whole, otherwise it is split on line boundaries
and re-packed greedily. -/
def splitMessage (text : List Char) (maxLength : Nat) : List (List Char) :=
  if text.length ≤ maxLength then [text]
  else chunkLoop maxLength [] (splitLines text)

/- ---------- shared string helpers (JavaScript includes, toLowerCase) ---------- -/

/-- Whether the first character list starts the second. -/
def strStarts : List Char → List Char → Bool
  | [], _ => true
  | _ :: _, [] => false
  | a :: as, b :: bs => a == b && strStarts as bs

/-- Whether the first character list occurs contiguously in the second. -/
def subOccurs (p : List Char) : List Char → Bool
  | [] => p.isEmpty
  | c :: rest => strStarts p (c :: rest) || subOccurs p rest

/-- JavaScript s.includes(pat): case-sensitive substring test. -/
def includesStr (s pat : String) : Bool := subOccurs pat.toList s.toList

/-- JavaScript s.toLowerCase(), modelled character-wise. -/
def lowerStr (s : String) : String := String.mk (s.toList.map Char.toLower)

/- ---------- ClaudeAgent.processMessage (src/agents/ClaudeAgent.js) ---------- -/

namespace Claude

/-- One outcome of the external claude invocation, at the boundary of
execAsync and JSON.parse: a parsed JSON object (session_id, result,
is_error, total_cost_usd), a non-empty unparseable stdout, an empty
stdout with optional stderr, or a thrown error carrying message, code
and signal. -/
inductive CallOutcome where
  | parsed (sessionId : Option String) (result : Option String) (isErr : Bool) (cost : Nat)
  | raw (text : String)
  | emptyOut (stderr : Option String)
  | thrown (message : String) (code : Option String) (signal : Option String)
deriving DecidableEq

/-- The object returned by processMessage: result text, cost and error
flag. -/
structure AgentResult where
  result : String
  cost : Nat
  isError : Bool
deriving DecidableEq

/-- The agent state touched by processMessage: the in-memory sessionId,
the sessions mapping, its last persisted image, the conversation-mode
flag and the channel key. -/
structure ClaudeState where
  sessionId : Option String := none
  sessions : List (String × String) := []
  persisted : List (String × String) := []
  useConversationMode : Bool := true
  channelKey : String := "default"
deriving DecidableEq

/-- JavaScript truthiness of a nullable string. -/
def optTruthy (o : Option String) : Bool :=
  match o with
  | none => false
  | some s => s != ""

/-- Remove the entry for a key from the mapping (JavaScript delete). -/
def eraseKey (k : String) (l : List (String × String)) : List (String × String) :=
  l.filter (fun p => p.1 != k)

/-- Set the entry for a key in the mapping (JavaScript assignment). -/
def setKey (k v : String) (l : List (String × String)) : List (String × String) :=
  eraseKey k l ++ [(k, v)]

/-- The message test of the catch block deciding an invalid-session
retry (ClaudeAgent.js lines 155-157). -/
def invalidSessionErr (msg : String) : Bool :=
  includesStr msg "session" || includesStr msg "not found" || includesStr msg "invalid"

/-- The error-message rewriting of the catch block
(ClaudeAgent.js lines 184-190). -/
def classifyError (msg : String) (code signal : Option String) : String :=
  if includesStr msg "not found" || includesStr msg "is not recognized" then
    "Claude CLI not found. Please check installation."
  else if code = some "ETIMEDOUT" || signal = some "SIGTERM" then
    "Claude request timed out. The query might be too complex."
  else msg

/-- Whether the built command carries a resume token: only in
conversation mode with a truthy sessionId (ClaudeAgent.js lines 44-56). -/
def resumeArg (st : ClaudeState) : Option String :=
  if st.useConversationMode && optTruthy st.sessionId then st.sessionId else none

/-- The observable outcome of processMessage: the returned value, the
final state, the resume token of each invocation made (in order), and
the unconsumed invocation outcomes. -/
structure ProcOut where
  response : Option AgentResult
  final : ClaudeState
  callsMade : List (Option String)
  envLeft : List CallOutcome
deriving DecidableEq

/-- ClaudeAgent.processMessage (ClaudeAgent.js lines 19-198) with the
external invocations supplied as a list of outcomes, one consumed per
invocation. On a parsed JSON output a truthy changed session_id updates
and persists the mapping, a truthy result is returned, else is_error
yields an error result. A thrown error with a truthy sessionId and an
invalid-session message deletes the channel entry, persists, clears the
in-memory sessionId and retries; any other thrown error returns the
classified message as an error result. -/
def processMessage (env : List CallOutcome) (st : ClaudeState) : ProcOut :=
  match env with
  | [] => ⟨none, st, [], []⟩
  | o :: rest =>
    match o with
    | .thrown msg code signal =>
      if optTruthy st.sessionId && invalidSessionErr msg then
        let st2 : ClaudeState :=
          { st with sessions := eraseKey st.channelKey st.sessions,
                    sessionId := none,
                    persisted := eraseKey st.channelKey st.sessions }
        let q := processMessage rest st2
        ⟨q.response, q.final, resumeArg st :: q.callsMade, q.envLeft⟩
      else
        ⟨some ⟨classifyError msg code signal, 0, true⟩, st, [resumeArg st], rest⟩
    | .parsed sid res isErr cost =>
      let st1 :=
        if optTruthy sid && st.sessionId ≠ sid then
          { st with sessionId := sid,
                    sessions := setKey st.channelKey (sid.getD "") st.sessions,
                    persisted := setKey st.channelKey (sid.getD "") st.sessions }
        else st
      if optTruthy res then
        ⟨some ⟨res.getD "", cost, false⟩, st1, [resumeArg st], rest⟩
      else if isErr then
        ⟨some ⟨"Unknown error", 0, true⟩, st1, [resumeArg st], rest⟩
      else
        ⟨none, st1, [resumeArg st], rest⟩
    | .raw text =>
      ⟨some ⟨text, 0, false⟩, st, [resumeArg st], rest⟩
    | .emptyOut stderr =>
      match stderr with
      | some e => ⟨some ⟨"Error from Claude: " ++ e, 0, true⟩, st, [resumeArg st], rest⟩
      | none => ⟨none, st, [resumeArg st], rest⟩

end Claude

/- ---------- BaseAgent.loadSessions (part_001 lines 70-87) ---------- -/

namespace Base

/-- The outcome of reading and parsing the session file: a file-system
error carrying its code, or content whose JSON parse either yields a
mapping or throws. -/
inductive ReadResult where
  | fsError (code : String)
  | content (parsed : Option (List (String × String)))
deriving DecidableEq

/-- The observable outcome of loadSessions: the sessions mapping, the
in-memory sessionId and whether an error was logged. -/
structure LoadOut where
  sessions : List (String × String)
  sessionId : Option String
  loggedError : Bool
deriving DecidableEq

/-- Look up a key in the mapping. -/
def lookupKey (k : String) (l : List (String × String)) : Option String :=
  (l.find? (fun p => p.1 == k)).map (·.2)

/-- BaseAgent.loadSessions (part_001 lines 70-87): on a parsed mapping
adopt it and, when the current channel has a truthy entry, set
sessionId from it; on any failure fall back to the empty mapping,
logging the error unless its code is ENOENT. -/
def loadSessions (r : ReadResult) (channelKey : String) (sessionId0 : Option String) : LoadOut :=
  match r with
  | .content (some m) =>
    let sid :=
      match lookupKey channelKey m with
      | some v => if v != "" then some v else sessionId0
      | none => sessionId0
    ⟨m, sid, false⟩
  | .content none => ⟨[], sessionId0, true⟩
  | .fsError code => ⟨[], sessionId0, code != "ENOENT"⟩

end Base

/- ---------- per-message dispatch of the run loops ---------- -/

namespace Dispatch

/-- What the loop does with one polled message: skip it as the bot's
own, skip it as coming from the filtered user, log the response only,
post the response, or nothing when the agent returned null. -/
inductive MsgAction where
  | skippedOwn
  | skippedFilter
  | logged (response : String)
  | posted (response : String)
  | noResponse
deriving DecidableEq

/-- Truthiness of the configured mention filter. -/
def filterActive (filter : Option String) : Bool :=
  match filter with
  | some f => f != ""
  | none => false

/-- shouldSendResponse content test (part_002 lines 62-71): the content
mentions the filter token case-insensitively or as an at-mention. -/
def mentionsFilter (content f : String) : Bool :=
  includesStr (lowerStr content) (lowerStr f) || includesStr content ("@" ++ f)

/-- The per-message body of ChatOrchestrator.run (part_002 lines
87-121): skip own messages, then skip messages from the filtered user
by case-insensitive author comparison, then invoke the agent and log or
post the response. -/
def orchestratorStep (testingMode : Bool) (filter : Option String) (isOwn : Msg → Bool)
    (agent : Msg → Option String) (msg : Msg) : MsgAction :=
  if isOwn msg then .skippedOwn
  else if filterActive filter && lowerStr msg.author == lowerStr (filter.getD "") then
    .skippedFilter
  else
    match agent msg with
    | none => .noResponse
    | some resp =>
      let shouldRespond := !filterActive filter || mentionsFilter msg.content (filter.getD "")
      if testingMode || !shouldRespond then .logged resp else .posted resp

/-- The per-message body of DiscordAgent.run (part_003 lines 737-767):
identical except that no own-message check precedes the filter skip. -/
def discordRunStep (testingMode : Bool) (filter : Option String)
    (agent : Msg → Option String) (msg : Msg) : MsgAction :=
  if filterActive filter && lowerStr msg.author == lowerStr (filter.getD "") then
    .skippedFilter
  else
    match agent msg with
    | none => .noResponse
    | some resp =>
      let shouldRespond := !filterActive filter || mentionsFilter msg.content (filter.getD "")
      if testingMode || !shouldRespond then .logged resp else .posted resp

end Dispatch

/- ---------- concrete inputs used by witnesses and counterexamples ---------- -/

/-- Five plain non-bot records, as in the startup-window scenario. -/
def msgs5 : List Msg :=
  [⟨"message-content-1", "A", "m1", none, ""⟩,
   ⟨"message-content-2", "A", "m2", none, ""⟩,
   ⟨"message-content-3", "B", "m3", none, ""⟩,
   ⟨"message-content-4", "A", "m4", none, ""⟩,
   ⟨"message-content-5", "B", "m5", none, ""⟩]

/-- A headed record followed by a continuation record. -/
def contDemo : List Msg :=
  [⟨"message-content-1", "A", "hi", none, ""⟩,
   ⟨"message-content-2", "Unknown", "there", none, ""⟩]

/-- A two-record snapshot with distinct ids, for the idempotence
witness. -/
def idemDemo : List Msg :=
  [⟨"message-content-1", "A", "hi", none, ""⟩,
   ⟨"message-content-2", "A", "yo", none, ""⟩]

/-- A ClaudeAgent state holding a resumable session for channel
general. -/
def claudeStDemo : Claude.ClaudeState :=
  ⟨some "sess1", [("general", "sess1")], [("general", "sess1")], true, "general"⟩

/-- A message from the filtered user, under a different letter case. -/
def filterMsgDemo : Msg := ⟨"message-content-9", "Claude", "hey there", none, ""⟩

/-- A single record whose author could not be resolved. -/
def unkDemo : List Msg := [⟨"message-content-1", "Unknown", "hello", none, ""⟩]

/-- A 900-character line. -/
def line900 : List Char := List.replicate 900 'a'

/-- An 896-character line. -/
def line896 : List Char := List.replicate 896 'a'

/-- A 4500-character text of five lines that packs into three chunks
under the 2000-character limit. -/
def demo4500 : List Char := joinLines [line900, line900, line900, line900, line896]

/- ==================== helper lemmas ==================== -/

lemma stepMsg_id (bn : String) (rp : List Msg) (lka : Option String) (m : Msg) :
    (stepMsg bn rp lka m).id = m.id := by
  unfold stepMsg
  split_ifs <;> rfl

lemma stepMsg_of_ne (bn : String) (rp : List Msg) (lka : Option String) {m : Msg}
    (h : m.author ≠ "Unknown") : stepMsg bn rp lka m = m := by
  unfold stepMsg
  simp [h]

lemma resolveAux_fst_map_id (bn : String) :
    ∀ (l rp : List Msg) (lka : Option String),
      ((resolveAux bn lka rp l).1).map Msg.id = l.map Msg.id := by
  intro l
  induction l with
  | nil => intro rp lka; rfl
  | cons m rest ih =>
    intro rp lka
    simp [resolveAux, stepMsg_id, ih]

lemma resolveMsgs_fst_map_id (bn : String) (lka : Option String) (raw : List Msg) :
    ((resolveMsgs bn lka raw).1).map Msg.id = raw.map Msg.id :=
  resolveAux_fst_map_id bn raw [] lka

lemma resolveAux_fst_of_no_unknown (bn : String) :
    ∀ (l rp : List Msg) (lka : Option String),
      (∀ m ∈ l, m.author ≠ "Unknown") → (resolveAux bn lka rp l).1 = l := by
  intro l
  induction l with
  | nil => intro rp lka _; rfl
  | cons m rest ih =>
    intro rp lka h
    have hm : m.author ≠ "Unknown" := h m (List.mem_cons_self m rest)
    simp [resolveAux, stepMsg_of_ne bn rp lka hm,
      ih _ _ (fun x hx => h x (List.mem_cons_of_mem m hx))]

lemma mem_computeEmitted (st : AgentState) (msgs : List Msg) (m : Msg)
    (h : m ∈ computeEmitted st msgs) : emitFilter st.botName m = true := by
  unfold computeEmitted at h
  split_ifs at h
  · exact absurd h (List.not_mem_nil m)
  · exact (List.mem_filter.mp h).2
  · exact (List.mem_filter.mp h).2
  · exact (List.mem_filter.mp h).2

lemma getNewMessages_fst (st : AgentState) (raw : List Msg) :
    (getNewMessages st raw).1 =
      computeEmitted st (resolveMsgs st.botName st.lastKnownAuthor raw).1 := rfl

lemma getNewMessages_lastId (st : AgentState) (raw : List Msg) :
    (getNewMessages st raw).2.lastMessageId =
      (match (resolveMsgs st.botName st.lastKnownAuthor raw).1.getLast? with
       | some m => some m.id
       | none => st.lastMessageId) := rfl

lemma getNewMessages_snd_lka (st : AgentState) (raw : List Msg) :
    (getNewMessages st raw).2.lastKnownAuthor =
      (if optFalsy (resolveMsgs st.botName st.lastKnownAuthor raw).2 = true ∧
          (resolveMsgs st.botName st.lastKnownAuthor raw).1 ≠ [] then
        match seedScan st.botName (resolveMsgs st.botName st.lastKnownAuthor raw).1 with
        | some a => some a
        | none => (resolveMsgs st.botName st.lastKnownAuthor raw).2
      else (resolveMsgs st.botName st.lastKnownAuthor raw).2) := rfl

lemma getNewMessages_fst_mk (lmid lka : Option String) (b : Bool) (bn : String) (L : Int)
    (raw : List Msg) :
    (getNewMessages ⟨lmid, lka, b, bn, L⟩ raw).1 =
      (if b = true ∧ optFalsy lmid = true ∧ 0 ≤ L ∧
          L < ((resolveMsgs bn lka raw).1.length : Int) then
        if L = 0 then []
        else ((resolveMsgs bn lka raw).1.drop
          ((resolveMsgs bn lka raw).1.length - L.toNat)).filter (emitFilter bn)
      else if b = true ∧ optFalsy lmid = true ∧ L < 0 then
        (resolveMsgs bn lka raw).1.filter (emitFilter bn)
      else (newAfterCursor lmid (resolveMsgs bn lka raw).1).filter (emitFilter bn)) := rfl

lemma getNewMessages_lastId_mk (lmid lka : Option String) (b : Bool) (bn : String) (L : Int)
    (raw : List Msg) :
    (getNewMessages ⟨lmid, lka, b, bn, L⟩ raw).2.lastMessageId =
      (match (resolveMsgs bn lka raw).1.getLast? with
       | some m => some m.id
       | none => lmid) := rfl

lemma resolveAux_lkaOk (bn : String) :
    ∀ (l rp : List Msg) (lka : Option String),
      lkaOk bn lka = true → lkaOk bn (resolveAux bn lka rp l).2 = true := by
  intro l
  induction l with
  | nil => intro rp lka h; exact h
  | cons m rest ih =>
    intro rp lka h
    simp only [resolveAux]
    apply ih
    unfold stepLka
    split_ifs with h1 h2
    · exact h
    · simp [lkaOk, bne_iff_ne, h1, h2]
    · exact h

lemma seedScan_some_ok (bn : String) (l : List Msg) (a : String)
    (h : seedScan bn l = some a) : lkaOk bn (some a) = true := by
  unfold seedScan at h
  cases hf : l.reverse.find?
      (fun m => m.author != "" && m.author != "Unknown" && m.author != bn) with
  | none => rw [hf] at h; simp at h
  | some x =>
    rw [hf] at h
    have hp := List.find?_some hf
    simp only [Bool.and_eq_true, bne_iff_ne] at hp
    simp only [Option.map_some'] at h
    have hax : x.author = a := by injection h
    simp [lkaOk, bne_iff_ne, ← hax, hp.1.2, hp.2]

lemma dropThroughId_eq_nil (c : String) :
    ∀ l : List Msg, (∀ s ∈ (l.map Msg.id).dropLast, s ≠ c) →
      (l.map Msg.id).getLast? = some c → dropThroughId c l = [] := by
  intro l
  induction l with
  | nil => intro _ h; simp at h
  | cons m rest ih =>
    intro h1 h2
    cases rest with
    | nil =>
      have hm : m.id = c := by simpa using h2
      simp [dropThroughId, hm]
    | cons x xs =>
      have hm : m.id ≠ c := h1 m.id (by simp [List.dropLast])
      rw [show dropThroughId c (m :: x :: xs) = dropThroughId c (x :: xs) by
        simp [dropThroughId, hm]]
      refine ih (fun s hs => h1 s ?_) (by simpa [List.getLast?_cons_cons] using h2)
      simpa [List.dropLast] using Or.inr hs

lemma resolveAux_cons_fst (bn : String) (lka : Option String) (rp : List Msg) (m : Msg)
    (rest : List Msg) :
    (resolveAux bn lka rp (m :: rest)).1 =
      stepMsg bn rp lka m ::
        (resolveAux bn (stepLka bn lka m) (stepMsg bn rp lka m :: rp) rest).1 := rfl

lemma contAuthor_eq (bn : String) (rp : List Msg) (lka : Option String) :
    contAuthor bn rp lka =
      (if optFalsy (lookBack bn rp) && !(optFalsy lka) then lka else lookBack bn rp) := rfl

lemma lookBack_mem (bn : String) (rp : List Msg) (a : String) (h : lookBack bn rp = some a) :
    ∃ x ∈ rp, x.author = a ∧ x.author ≠ "Unknown" ∧ x.author ≠ bn := by
  unfold lookBack at h
  cases hf : rp.find? (fun m => m.author != "Unknown" && m.author != bn) with
  | none => rw [hf] at h; simp at h
  | some x =>
    rw [hf] at h
    simp only [Option.map_some'] at h
    have hp := List.find?_some hf
    simp only [Bool.and_eq_true, bne_iff_ne] at hp
    exact ⟨x, List.mem_of_find?_eq_some hf, by injection h, hp.1, hp.2⟩

lemma lookBack_none (bn : String) (rp : List Msg) (h : lookBack bn rp = none) :
    ∀ x ∈ rp, x.author = "Unknown" ∨ x.author = bn := by
  unfold lookBack at h
  have hf : rp.find? (fun m => m.author != "Unknown" && m.author != bn) = none := by
    cases hf : rp.find? (fun m => m.author != "Unknown" && m.author != bn) with
    | none => rfl
    | some x => rw [hf] at h; simp at h
  intro x hx
  have hnp := List.find?_eq_none.mp hf x hx
  by_cases h1 : x.author = "Unknown"
  · exact Or.inl h1
  · by_cases h2 : x.author = bn
    · exact Or.inr h2
    · exact absurd (by simp [bne_iff_ne, h1, h2]) hnp

lemma stepMsg_author_unknown (bn : String) (rp : List Msg) (lka : Option String) (m : Msg)
    (hm : m.author = "Unknown") :
    (stepMsg bn rp lka m).author =
      (if optFalsy (contAuthor bn rp lka) then "Unknown"
       else (contAuthor bn rp lka).getD "") := by
  unfold stepMsg
  rw [if_pos hm]
  split_ifs with h
  · exact hm
  · rfl

lemma resolved_head_eq (bn : String) (rp : List Msg) (lka : Option String) (m : Msg)
    (hm : m.author = "Unknown")
    (hrp : ∀ x ∈ rp, x.author ≠ "") (hl : lka ≠ some "") :
    (stepMsg bn rp lka m).author =
      (match lookBack bn rp with
       | some a => a
       | none => lka.getD "Unknown") := by
  rw [stepMsg_author_unknown bn rp lka m hm, contAuthor_eq]
  cases hlb : lookBack bn rp with
  | some a =>
    obtain ⟨x, hx, hxa, -, -⟩ := lookBack_mem bn rp a hlb
    have ha : a ≠ "" := by rw [← hxa]; exact hrp x hx
    simp [optFalsy, ha]
  | none =>
    cases lka with
    | none => simp [optFalsy]
    | some b =>
      have hb : b ≠ "" := fun h => hl (by rw [h])
      simp [optFalsy, hb]

lemma stepMsg_author_ne_empty (bn : String) (rp : List Msg) (lka : Option String) (m : Msg)
    (hm : m.author ≠ "") : (stepMsg bn rp lka m).author ≠ "" := by
  unfold stepMsg
  split_ifs with h1 h2
  · exact hm
  · show (contAuthor bn rp lka).getD "" ≠ ""
    intro hh
    apply h2
    simp [optFalsy, hh]
  · exact hm

lemma stepLka_unknown (bn : String) (lka : Option String) (m : Msg)
    (hm : m.author = "Unknown") : stepLka bn lka m = lka := by
  unfold stepLka
  rw [if_pos hm]

lemma stepLka_bot (bn : String) (lka : Option String) (m : Msg)
    (hm : m.author ≠ "Unknown") (hb : m.author = bn) : stepLka bn lka m = lka := by
  unfold stepLka
  rw [if_neg hm, if_neg (not_not_intro hb)]

lemma stepLka_other (bn : String) (lka : Option String) (m : Msg)
    (hm : m.author ≠ "Unknown") (hb : m.author ≠ bn) : stepLka bn lka m = some m.author := by
  unfold stepLka
  rw [if_neg hm, if_pos hb]

lemma resolveAux_unknown_spec (bn : String) :
    ∀ (l rp : List Msg) (lka : Option String),
      (∀ m ∈ l, m.author ≠ "") → (∀ m ∈ rp, m.author ≠ "") → lka ≠ some "" →
      (∀ m ∈ (resolveAux bn lka rp l).1, m.author ≠ "") ∧
      (∀ i : Nat, l[i]?.map Msg.author = some "Unknown" →
        ((resolveAux bn lka rp l).1)[i]?.map Msg.author =
          some (match lookBack bn ((((resolveAux bn lka rp l).1).take i).reverse ++ rp) with
                | some a => a
                | none => lka.getD "Unknown")) := by
  intro l
  induction l with
  | nil =>
    intro rp lka _ _ _
    constructor
    · intro m hm
      simp [resolveAux] at hm
    · intro i hi
      simp at hi
  | cons m rest ih =>
    intro rp lka hA hrp hl
    have hmA : m.author ≠ "" := hA m (List.mem_cons_self _ _)
    have hrestA : ∀ x ∈ rest, x.author ≠ "" := fun x hx => hA x (List.mem_cons_of_mem _ hx)
    have hm1 : (stepMsg bn rp lka m).author ≠ "" := stepMsg_author_ne_empty bn rp lka m hmA
    have hrp2 : ∀ x ∈ stepMsg bn rp lka m :: rp, x.author ≠ "" := by
      intro x hx
      rcases List.mem_cons.mp hx with rfl | hx2
      · exact hm1
      · exact hrp x hx2
    have hl2 : stepLka bn lka m ≠ some "" := by
      unfold stepLka
      split_ifs with h1 h2
      · exact hl
      · intro hh
        injection hh with hh2
        exact hmA hh2
      · exact hl
    obtain ⟨ihA, ihSpec⟩ := ih (stepMsg bn rp lka m :: rp) (stepLka bn lka m) hrestA hrp2 hl2
    constructor
    · intro x hx
      rw [resolveAux_cons_fst] at hx
      rcases List.mem_cons.mp hx with rfl | hx2
      · exact hm1
      · exact ihA x hx2
    · intro i hi
      rw [resolveAux_cons_fst]
      cases i with
      | zero =>
        have hm0 : m.author = "Unknown" := by simpa using hi
        simp only [List.getElem?_cons_zero, Option.map_some', List.take_zero,
          List.reverse_nil, List.nil_append]
        rw [resolved_head_eq bn rp lka m hm0 hrp hl]
      | succ j =>
        have hj : rest[j]?.map Msg.author = some "Unknown" := by simpa using hi
        have hspec := ihSpec j hj
        simp only [List.getElem?_cons_succ, List.take_succ_cons, List.reverse_cons,
          List.append_assoc, List.singleton_append]
        rw [hspec]
        by_cases hmm : m.author = "Unknown"
        · rw [stepLka_unknown bn lka m hmm]
        · by_cases hbn : m.author = bn
          · rw [stepLka_bot bn lka m hmm hbn]
          · cases hlb : lookBack bn
                (((resolveAux bn (stepLka bn lka m) (stepMsg bn rp lka m :: rp) rest).1.take
                    j).reverse ++ stepMsg bn rp lka m :: rp) with
            | some a => simp [hlb]
            | none =>
              exfalso
              have hall := lookBack_none bn _ hlb (stepMsg bn rp lka m)
                (List.mem_append.mpr (Or.inr (List.mem_cons_self _ _)))
              rw [stepMsg_of_ne bn rp lka hmm] at hall
              rcases hall with h2 | h2
              · exact hmm h2
              · exact hbn h2

lemma splitLinesAux_nil (cur : List Char) : splitLinesAux cur [] = [cur.reverse] := rfl

lemma splitLinesAux_cons (cur : List Char) (c : Char) (cs : List Char) :
    splitLinesAux cur (c :: cs) =
      if c = '\n' then cur.reverse :: splitLinesAux [] cs else splitLinesAux (c :: cur) cs := rfl

lemma chunkLoop_nil (maxLen : Nat) (cur : List Char) :
    chunkLoop maxLen cur [] = if cur.isEmpty then [] else [cur] := rfl

lemma chunkLoop_cons (maxLen : Nat) (cur line : List Char) (rest : List (List Char)) :
    chunkLoop maxLen cur (line :: rest) =
      if maxLen < cur.length + line.length + 1 then
        (if cur.isEmpty then [] else [cur]) ++ chunkLoop maxLen line rest
      else chunkLoop maxLen (if cur.isEmpty then line else cur ++ '\n' :: line) rest := rfl

lemma splitLinesAux_ne_nil : ∀ (cs cur : List Char), splitLinesAux cur cs ≠ [] := by
  intro cs
  induction cs with
  | nil => intro cur; rw [splitLinesAux_nil]; simp
  | cons c cs ih =>
    intro cur
    rw [splitLinesAux_cons]
    split_ifs
    · simp
    · exact ih (c :: cur)

lemma joinLines_cons (a : List Char) (l : List (List Char)) (h : l ≠ []) :
    joinLines (a :: l) = a ++ '\n' :: joinLines l := by
  cases l with
  | nil => exact absurd rfl h
  | cons x xs => rfl

lemma joinLines_splitLinesAux : ∀ (cs cur : List Char),
    joinLines (splitLinesAux cur cs) = cur.reverse ++ cs := by
  intro cs
  induction cs with
  | nil =>
    intro cur
    rw [splitLinesAux_nil]
    show cur.reverse = cur.reverse ++ []
    rw [List.append_nil]
  | cons c cs ih =>
    intro cur
    rw [splitLinesAux_cons]
    split_ifs with hc
    · rw [joinLines_cons _ _ (splitLinesAux_ne_nil cs []), ih []]
      simp [hc]
    · rw [ih (c :: cur)]
      simp

lemma joinLines_splitLines (t : List Char) : joinLines (splitLines t) = t := by
  simpa using joinLines_splitLinesAux t []

lemma chunkLoop_ne_nil (maxLen : Nat) :
    ∀ (lines : List (List Char)) (cur : List Char), cur ≠ [] →
      chunkLoop maxLen cur lines ≠ [] := by
  intro lines
  induction lines with
  | nil =>
    intro cur hc
    have hem : cur.isEmpty = false := by simp [List.isEmpty_iff, hc]
    rw [chunkLoop_nil]
    simp only [hem, Bool.false_eq_true, if_false]
    simp
  | cons line rest ih =>
    intro cur hc
    have hem : cur.isEmpty = false := by simp [List.isEmpty_iff, hc]
    rw [chunkLoop_cons]
    simp only [hem, Bool.false_eq_true, if_false]
    split_ifs with hov
    · simp
    · exact ih (cur ++ '\n' :: line) (by simp)

lemma chunkLoop_join (maxLen : Nat) :
    ∀ (lines : List (List Char)) (cur : List Char), cur ≠ [] → (∀ l ∈ lines, l ≠ []) →
      joinLines (chunkLoop maxLen cur lines) = joinLines (cur :: lines) := by
  intro lines
  induction lines with
  | nil =>
    intro cur hc _
    have hem : cur.isEmpty = false := by simp [List.isEmpty_iff, hc]
    rw [chunkLoop_nil]
    simp only [hem, Bool.false_eq_true, if_false]
  | cons line rest ih =>
    intro cur hc hl
    have hline : line ≠ [] := hl line (List.mem_cons_self _ _)
    have hrest : ∀ l ∈ rest, l ≠ [] := fun x hx => hl x (List.mem_cons_of_mem _ hx)
    have hem : cur.isEmpty = false := by simp [List.isEmpty_iff, hc]
    rw [chunkLoop_cons]
    simp only [hem, Bool.false_eq_true, if_false]
    split_ifs with hov
    · rw [List.singleton_append,
        joinLines_cons cur _ (chunkLoop_ne_nil maxLen rest line hline),
        ih line hline hrest,
        joinLines_cons cur (line :: rest) (by simp)]
    · rw [ih (cur ++ '\n' :: line) (by simp) hrest]
      cases rest with
      | nil => rfl
      | cons y ys =>
        rw [joinLines_cons _ _ (by simp), joinLines_cons cur _ (by simp),
          joinLines_cons line _ (by simp)]
        simp

lemma chunkLoop_start (maxLen : Nat) (lines : List (List Char)) (hne : lines ≠ [])
    (hl : ∀ l ∈ lines, l ≠ []) :
    joinLines (chunkLoop maxLen [] lines) = joinLines lines := by
  cases lines with
  | nil => exact absurd rfl hne
  | cons line rest =>
    have hline : line ≠ [] := hl line (List.mem_cons_self _ _)
    have hrest : ∀ l ∈ rest, l ≠ [] := fun x hx => hl x (List.mem_cons_of_mem _ hx)
    have hred : chunkLoop maxLen [] (line :: rest) = chunkLoop maxLen line rest := by
      rw [chunkLoop_cons, if_pos (by rfl : (([] : List Char).isEmpty) = true),
        if_pos (by rfl : (([] : List Char).isEmpty) = true)]
      split_ifs with hov
      · simp
      · rfl
    rw [hred]
    exact chunkLoop_join maxLen rest line hline hrest

lemma chunkLoop_length_le (maxLen : Nat) :
    ∀ (lines : List (List Char)) (cur : List Char),
      (∀ l ∈ lines, l.length ≤ maxLen) → cur.length ≤ maxLen →
      ∀ ch ∈ chunkLoop maxLen cur lines, ch.length ≤ maxLen := by
  intro lines
  induction lines with
  | nil =>
    intro cur _ hcur ch hch
    rw [chunkLoop_nil] at hch
    split_ifs at hch
    · exact absurd hch (List.not_mem_nil ch)
    · rw [List.mem_singleton.mp hch]
      exact hcur
  | cons line rest ih =>
    intro cur hl hcur ch hch
    have hline : line.length ≤ maxLen := hl line (List.mem_cons_self _ _)
    have hrest : ∀ l ∈ rest, l.length ≤ maxLen := fun x hx => hl x (List.mem_cons_of_mem _ hx)
    rw [chunkLoop_cons] at hch
    by_cases hov : maxLen < cur.length + line.length + 1
    · rw [if_pos hov] at hch
      rcases List.mem_append.mp hch with h1 | h2
      · by_cases hemp : cur.isEmpty = true
        · rw [if_pos hemp] at h1
          exact absurd h1 (List.not_mem_nil ch)
        · rw [if_neg hemp] at h1
          rw [List.mem_singleton.mp h1]
          exact hcur
      · exact ih line hrest hline ch h2
    · rw [if_neg hov] at hch
      refine ih _ hrest ?_ ch hch
      push_neg at hov
      by_cases hemp : cur.isEmpty = true
      · rw [if_pos hemp]
        exact hline
      · rw [if_neg hemp]
        simp only [List.length_append, List.length_cons]
        omega

lemma repl_no_nl (n : Nat) : ∀ c ∈ (List.replicate n 'a' : List Char), c ≠ '\n' := by
  intro c hc
  rw [List.eq_of_mem_replicate hc]
  decide

lemma splitLinesAux_no_nl :
    ∀ (line : List Char), (∀ c ∈ line, c ≠ '\n') →
      ∀ cur : List Char, splitLinesAux cur line = [cur.reverse ++ line] := by
  intro line
  induction line with
  | nil =>
    intro _ cur
    rw [splitLinesAux_nil]
    simp
  | cons c cs ih =>
    intro h cur
    have hc : c ≠ '\n' := h c (List.mem_cons_self _ _)
    rw [splitLinesAux_cons, if_neg hc, ih (fun x hx => h x (List.mem_cons_of_mem _ hx)) (c :: cur)]
    simp

lemma splitLinesAux_nl_split :
    ∀ (line : List Char), (∀ c ∈ line, c ≠ '\n') →
      ∀ (cur t : List Char),
        splitLinesAux cur (line ++ '\n' :: t) = (cur.reverse ++ line) :: splitLinesAux [] t := by
  intro line
  induction line with
  | nil =>
    intro _ cur t
    rw [List.nil_append, splitLinesAux_cons, if_pos rfl]
    simp
  | cons c cs ih =>
    intro h cur t
    have hc : c ≠ '\n' := h c (List.mem_cons_self _ _)
    rw [List.cons_append, splitLinesAux_cons, if_neg hc,
      ih (fun x hx => h x (List.mem_cons_of_mem _ hx)) (c :: cur) t]
    simp

lemma splitLines_joinLines :
    ∀ (lines : List (List Char)), lines ≠ [] → (∀ l ∈ lines, ∀ c ∈ l, c ≠ '\n') →
      splitLines (joinLines lines) = lines := by
  intro lines
  induction lines with
  | nil => intro h _; exact absurd rfl h
  | cons l ls ih =>
    intro _ h
    cases ls with
    | nil =>
      show splitLinesAux [] l = [l]
      rw [splitLinesAux_no_nl l (h l (List.mem_cons_self _ _)) []]
      simp
    | cons l2 ls2 =>
      show splitLinesAux [] (l ++ '\n' :: joinLines (l2 :: ls2)) = l :: l2 :: ls2
      rw [splitLinesAux_nl_split l (h l (List.mem_cons_self _ _)) [] _]
      simp only [List.reverse_nil, List.nil_append]
      show l :: splitLines (joinLines (l2 :: ls2)) = l :: l2 :: ls2
      rw [ih (by simp) (fun x hx => h x (List.mem_cons_of_mem _ hx))]

lemma splitLines_single (t : List Char) (h : ∀ c ∈ t, c ≠ '\n') : splitLines t = [t] := by
  show splitLinesAux [] t = [t]
  rw [splitLinesAux_no_nl t h []]
  simp

lemma line900_length : line900.length = 900 := by
  rw [show line900 = List.replicate 900 'a' from rfl, List.length_replicate]

lemma line896_length : line896.length = 896 := by
  rw [show line896 = List.replicate 896 'a' from rfl, List.length_replicate]

lemma line900_ne_nil : line900 ≠ [] := by
  intro h
  have h2 := congrArg List.length h
  rw [line900_length] at h2
  simp at h2

lemma line896_ne_nil : line896 ≠ [] := by
  intro h
  have h2 := congrArg List.length h
  rw [line896_length] at h2
  simp at h2

lemma splitLines_demo4500 :
    splitLines demo4500 = [line900, line900, line900, line900, line896] := by
  rw [show demo4500 = joinLines [line900, line900, line900, line900, line896] from rfl]
  refine splitLines_joinLines _ (by simp) (fun l hl => ?_)
  simp only [List.mem_cons, List.not_mem_nil, or_false] at hl
  rcases hl with rfl | rfl | rfl | rfl | rfl
  · exact repl_no_nl 900
  · exact repl_no_nl 900
  · exact repl_no_nl 900
  · exact repl_no_nl 900
  · exact repl_no_nl 896

lemma demo4500_length : demo4500.length = 4500 := by
  rw [show demo4500 = joinLines [line900, line900, line900, line900, line896] from rfl,
    joinLines_cons _ _ (by simp), joinLines_cons _ _ (by simp),
    joinLines_cons _ _ (by simp), joinLines_cons _ _ (by simp),
    show joinLines [line896] = line896 from rfl]
  simp only [List.length_append, List.length_cons, line900_length, line896_length]

lemma chunk_demo4500 :
    splitMessage demo4500 2000 =
      [line900 ++ '\n' :: line900, line900 ++ '\n' :: line900, line896] := by
  unfold splitMessage
  rw [if_neg (by rw [demo4500_length]; norm_num), splitLines_demo4500]
  simp [chunkLoop_cons, chunkLoop_nil, line900_length, line896_length,
    List.isEmpty_iff, eq_false line900_ne_nil, eq_false line896_ne_nil,
    List.append_eq_nil, List.length_append]

/- ==================== claim theorems ==================== -/

/-- C1: every record emitted by getNewMessages has non-empty content and
an author different from the configured bot display name, in every mode
(startup with any limit, and steady state). -/
theorem c1_emitted_nonempty_nonbot (st : AgentState) (raw : List Msg) (m : Msg)
    (h : m ∈ (getNewMessages st raw).1) :
    m.content ≠ "" ∧ m.author ≠ st.botName := by
  rw [getNewMessages_fst] at h
  have h2 := mem_computeEmitted st _ m h
  simp only [emitFilter, Bool.and_eq_true, bne_iff_ne] at h2
  exact ⟨h2.2, h2.1⟩

theorem c1_witness :
    (⟨"message-content-1", "A", "m1", none, ""⟩ : Msg) ∈
      (getNewMessages ⟨none, none, false, "Bot", 3⟩ msgs5).1 ∧
    (("m1" : String) ≠ "" ∧ ("A" : String) ≠ "Bot") :=
  ⟨by decide, c1_emitted_nonempty_nonbot ⟨none, none, false, "Bot", 3⟩ msgs5
    ⟨"message-content-1", "A", "m1", none, ""⟩ (by decide)⟩

/-- C9: getNewMessages preserves the invariant that lastKnownAuthor is
null or a string that is neither Unknown nor the bot's configured name,
so the continuation fallback can never be the bot's own name. -/
theorem c9_lastKnownAuthor_invariant (st : AgentState) (raw : List Msg)
    (h : lkaOk st.botName st.lastKnownAuthor = true) :
    lkaOk st.botName (getNewMessages st raw).2.lastKnownAuthor = true := by
  rw [getNewMessages_snd_lka]
  have hres := resolveAux_lkaOk st.botName raw [] st.lastKnownAuthor h
  split_ifs
  · cases hs : seedScan st.botName (resolveMsgs st.botName st.lastKnownAuthor raw).1 with
    | none => simpa [hs] using hres
    | some a => simpa [hs] using seedScan_some_ok st.botName _ a hs
  · exact hres

/-- C2: for every snapshot whose extracted authors are non-empty
strings (with Unknown as the unresolved sentinel) and whose stored
lastKnownAuthor is not the empty string, every record extracted with
author Unknown is assigned, by the resolution pass, the author of the
nearest prior record in the same snapshot whose author is resolved
(not Unknown) and is not the bot; when no such prior record exists it
is assigned the stored lastKnownAuthor when one exists, and otherwise
keeps the author Unknown. -/
theorem c2_continuation_resolution (bn : String) (lka : Option String) (raw : List Msg)
    (hA : ∀ m ∈ raw, m.author ≠ "") (hl : lka ≠ some "")
    (i : Nat) (hu : raw[i]?.map Msg.author = some "Unknown") :
    ((resolveMsgs bn lka raw).1)[i]?.map Msg.author =
      some (specContinuationAuthor bn lka (((resolveMsgs bn lka raw).1).take i)) := by
  have hemp : ∀ m ∈ ([] : List Msg), m.author ≠ "" := by
    intro x hx
    exact absurd hx (List.not_mem_nil x)
  have h := (resolveAux_unknown_spec bn raw [] lka hA hemp hl).2 i hu
  unfold specContinuationAuthor
  rw [show resolveMsgs bn lka raw = resolveAux bn lka [] raw from rfl]
  simpa using h

theorem c2_witness :
    ((resolveMsgs "Bot" none contDemo).1)[1]?.map Msg.author = some "A" := by
  have h := c2_continuation_resolution "Bot" none contDemo (by decide) (by decide) 1 (by decide)
  rw [h]
  decide

/-- C3: on the first poll (cursor unset, startup flag set) over five
resolved non-bot non-empty records: limit 3 emits exactly the last
three, limit 0 emits nothing, any negative limit emits all five, and in
every case the cursor afterwards is the id of the last record of the
full snapshot. -/
theorem c3_startup_window (bn : String) (lka : Option String) (raw : List Msg)
    (hlen : raw.length = 5)
    (h1 : ∀ m ∈ raw, m.author ≠ "Unknown")
    (h2 : ∀ m ∈ raw, m.author ≠ bn)
    (h3 : ∀ m ∈ raw, m.content ≠ "") :
    (getNewMessages ⟨none, lka, true, bn, 3⟩ raw).1 = raw.drop 2 ∧
    (getNewMessages ⟨none, lka, true, bn, 0⟩ raw).1 = [] ∧
    (∀ L : Int, L < 0 → (getNewMessages ⟨none, lka, true, bn, L⟩ raw).1 = raw) ∧
    (∀ L : Int, (getNewMessages ⟨none, lka, true, bn, L⟩ raw).2.lastMessageId =
      raw.getLast?.map Msg.id) := by
  have hres : (resolveMsgs bn lka raw).1 = raw :=
    resolveAux_fst_of_no_unknown bn raw [] lka h1
  have hfilt : ∀ l : List Msg, l ⊆ raw → l.filter (emitFilter bn) = l := by
    intro l hsub
    refine List.filter_eq_self.mpr (fun m hm => ?_)
    simp [emitFilter, bne_iff_ne, h2 m (hsub hm), h3 m (hsub hm)]
  refine ⟨?_, ?_, ?_, ?_⟩
  · rw [getNewMessages_fst_mk, hres, hlen,
      if_pos ⟨rfl, rfl, by decide, by decide⟩, if_neg (by decide),
      (by decide : 5 - (3 : Int).toNat = 2)]
    exact hfilt _ (List.drop_subset 2 raw)
  · rw [getNewMessages_fst_mk, hres, hlen,
      if_pos ⟨rfl, rfl, by decide, by decide⟩, if_pos rfl]
  · intro L hL
    rw [getNewMessages_fst_mk, hres,
      if_neg (by rintro ⟨-, -, hge, -⟩; omega), if_pos ⟨rfl, rfl, hL⟩]
    exact hfilt raw (fun _ h => h)
  · intro L
    rw [getNewMessages_lastId_mk, hres]
    cases hq : raw.getLast? with
    | none => simp
    | some m => simp

theorem c3_witness :
    (getNewMessages ⟨none, none, true, "Bot", 3⟩ msgs5).1 = msgs5.drop 2 ∧
    (getNewMessages ⟨none, none, true, "Bot", 0⟩ msgs5).1 = [] ∧
    (getNewMessages ⟨none, none, true, "Bot", -1⟩ msgs5).1 = msgs5 ∧
    (getNewMessages ⟨none, none, true, "Bot", 0⟩ msgs5).2.lastMessageId =
      some "message-content-5" := by
  have h := c3_startup_window "Bot" none msgs5 (by decide) (by decide) (by decide) (by decide)
  exact ⟨h.1, h.2.1, h.2.2.1 (-1) (by decide), (h.2.2.2 0).trans (by decide)⟩

/-- C7: a record whose author no strategy can resolve keeps the author
Unknown and is still emitted whenever its content is non-empty; with no
resolvable backward author and no stored lastKnownAuthor, the
steady-state emitted set is exactly the records with non-empty content,
all still carrying the author Unknown. -/
theorem c7_unknown_still_emitted (bn : String) (L : Int) (raw : List Msg)
    (hb : bn ≠ "Unknown")
    (hall : ∀ m ∈ raw, m.author = "Unknown") :
    (getNewMessages ⟨none, none, false, bn, L⟩ raw).1 =
      raw.filter (fun m => m.content != "") ∧
    ∀ m ∈ (getNewMessages ⟨none, none, false, bn, L⟩ raw).1, m.author = "Unknown" := by
  have hres : (resolveMsgs bn none raw).1 = raw := by
    have : ∀ (l rp : List Msg),
        (∀ m ∈ l, m.author = "Unknown") → (∀ m ∈ rp, m.author = "Unknown") →
        resolveAux bn none rp l = (l, none) := by
      intro l
      induction l with
      | nil => intro rp _ _; rfl
      | cons m rest ih =>
        intro rp h hrp
        have hm : m.author = "Unknown" := h m (List.mem_cons_self m rest)
        have hlb : lookBack bn rp = none := by
          unfold lookBack
          rw [List.find?_eq_none.mpr (fun x hx => by simp [hrp x hx])]
          rfl
        have hstep : stepMsg bn rp none m = m := by
          unfold stepMsg contAuthor
          simp [hm, hlb, optFalsy]
        have hlka : stepLka bn none m = none := by
          unfold stepLka
          simp [hm]
        simp only [resolveAux, hstep, hlka]
        rw [ih (m :: rp) (fun x hx => h x (List.mem_cons_of_mem m hx))
          (fun x hx => by
            rcases List.mem_cons.mp hx with h' | h'
            · rw [h']; exact hm
            · exact hrp x h')]
    exact congrArg Prod.fst (this raw [] hall (by intro x hx; exact absurd hx (List.not_mem_nil x)))
  constructor
  · rw [getNewMessages_fst_mk, hres,
      if_neg (by rintro ⟨h', -⟩; exact absurd h' (by decide)),
      if_neg (by rintro ⟨h', -⟩; exact absurd h' (by decide))]
    show raw.filter (emitFilter bn) = _
    refine List.filter_congr (fun m hm => ?_)
    simp [emitFilter, hall m hm, bne_iff_ne, Ne.symm hb]
  · intro m hm
    rw [getNewMessages_fst_mk, hres,
      if_neg (by rintro ⟨h', -⟩; exact absurd h' (by decide)),
      if_neg (by rintro ⟨h', -⟩; exact absurd h' (by decide))] at hm
    have hmem : m ∈ raw := (List.mem_filter.mp hm).1
    exact hall m hmem

theorem c7_witness :
    ("Bot" ≠ "Unknown") ∧
    (getNewMessages ⟨none, none, false, "Bot", 3⟩ unkDemo).1 =
      unkDemo.filter (fun m => m.content != "") :=
  ⟨by decide, (c7_unknown_still_emitted "Bot" 3 unkDemo (by decide) (by decide)).1⟩

/-- C4: polling is idempotent against an unchanged feed: running
getNewMessages a second time on the exact same ordered snapshot, with
the cursor updated by the first run (and the startup flag arbitrary),
emits nothing, for every snapshot whose final record has a non-empty id
occurring nowhere earlier in the snapshot (the data-model id-uniqueness
invariant, with ids as produced by the extractor). -/
theorem c4_second_poll_empty (st : AgentState) (b : Bool) (raw : List Msg) (c : String)
    (hlast : (raw.map Msg.id).getLast? = some c) (hc : c ≠ "")
    (huniq : ∀ s ∈ (raw.map Msg.id).dropLast, s ≠ c) :
    (getNewMessages { (getNewMessages st raw).2 with isStartup := b } raw).1 = [] := by
  have hgl : (resolveMsgs st.botName st.lastKnownAuthor raw).1.getLast?.map Msg.id = some c := by
    rw [← List.getLast?_map, resolveMsgs_fst_map_id st.botName st.lastKnownAuthor raw, hlast]
  have hcur : (getNewMessages st raw).2.lastMessageId = some c := by
    rw [getNewMessages_lastId]
    cases hq : (resolveMsgs st.botName st.lastKnownAuthor raw).1.getLast? with
    | none => rw [hq] at hgl; simp at hgl
    | some m =>
      rw [hq] at hgl
      simpa using hgl
  set st1 : AgentState := { (getNewMessages st raw).2 with isStartup := b } with hst1
  have hcur1 : st1.lastMessageId = some c := hcur
  have hof : optFalsy st1.lastMessageId = false := by
    rw [hcur1]
    simp [optFalsy, hc]
  have hids2 : ((resolveMsgs st1.botName st1.lastKnownAuthor raw).1).map Msg.id =
      raw.map Msg.id :=
    resolveMsgs_fst_map_id st1.botName st1.lastKnownAuthor raw
  rw [getNewMessages_fst]
  unfold computeEmitted
  rw [if_neg (by rintro ⟨-, h', -⟩; rw [hof] at h'; exact Bool.false_ne_true h'),
    if_neg (by rintro ⟨-, h', -⟩; rw [hof] at h'; exact Bool.false_ne_true h'),
    hcur1]
  show (if c = "" then _ else
    dropThroughId c (resolveMsgs st1.botName st1.lastKnownAuthor raw).1).filter
      (emitFilter st1.botName) = []
  rw [if_neg hc,
    dropThroughId_eq_nil c _ (fun s hs => huniq s (by rwa [hids2] at hs)) (by rw [hids2, hlast])]
  rfl

theorem c4_witness :
    (getNewMessages
      { (getNewMessages ⟨none, none, true, "Bot", -1⟩ idemDemo).2 with isStartup := false }
      idemDemo).1 = [] :=
  c4_second_poll_empty ⟨none, none, true, "Bot", -1⟩ false idemDemo "message-content-2"
    (by decide) (by decide) (by decide)

/-- C5 counterexample: the claim promises every chunk fits maxLength
and that any 4500-character reply splits into 3 chunks, but splitMessage
on a 4500-character single-line text with maxLength 2000 returns one
chunk of 4500 characters. -/
theorem c5_counterexample :
    splitMessage (List.replicate 4500 'a') 2000 = [List.replicate 4500 'a'] ∧
    2000 < (List.replicate 4500 'a' : List Char).length := by
  constructor
  · unfold splitMessage
    rw [if_neg (by rw [List.length_replicate]; omega),
      splitLines_single _ (repl_no_nl 4500), chunkLoop_cons,
      if_pos (by simp only [List.length_nil, List.length_replicate]; omega :
        2000 < List.length ([] : List Char) + (List.replicate 4500 'a').length + 1),
      if_pos (by rfl : (([] : List Char).isEmpty) = true), List.nil_append, chunkLoop_nil,
      if_neg (by simp only [List.isEmpty_iff, List.replicate_eq_nil_iff]; omega :
        ¬((List.replicate 4500 'a' : List Char).isEmpty = true))]
  · rw [List.length_replicate]
    omega

/-- C5 (amended): every chunk of splitMessage has length at most
maxLength provided every line of the text does; joining the chunks with
single newlines reproduces the text exactly provided no line of the
text is empty; and a 4500-character five-line text with maxLength 2000
splits into exactly 3 chunks, of lengths 1801, 1801 and 896, each
within the limit. The claim as stated fails when a line exceeds
maxLength or the text has empty lines. -/
theorem c5_chunking_amended (t : List Char) (maxLen : Nat) :
    ((∀ l ∈ splitLines t, l.length ≤ maxLen) →
      ∀ ch ∈ splitMessage t maxLen, ch.length ≤ maxLen) ∧
    ((∀ l ∈ splitLines t, l ≠ []) → joinLines (splitMessage t maxLen) = t) ∧
    (demo4500.length = 4500 ∧
      (splitMessage demo4500 2000).map List.length = [1801, 1801, 896]) := by
  refine ⟨?_, ?_, demo4500_length, ?_⟩
  · intro hl ch hch
    unfold splitMessage at hch
    split_ifs at hch with hle
    · rw [List.mem_singleton.mp hch]
      exact hle
    · exact chunkLoop_length_le maxLen (splitLines t) [] hl (by simp) ch hch
  · intro hl
    unfold splitMessage
    split_ifs with hle
    · rfl
    · rw [chunkLoop_start maxLen (splitLines t) (splitLinesAux_ne_nil t []) hl]
      exact joinLines_splitLines t
  · rw [chunk_demo4500]
    simp [line900_length, line896_length, List.length_append]

theorem c5_witness :
    (∀ l ∈ splitLines demo4500, l ≠ []) ∧
    joinLines (splitMessage demo4500 2000) = demo4500 := by
  have hl : ∀ l ∈ splitLines demo4500, l ≠ [] := by
    rw [splitLines_demo4500]
    intro l hml
    simp only [List.mem_cons, List.not_mem_nil, or_false] at hml
    rcases hml with rfl | rfl | rfl | rfl | rfl
    · exact line900_ne_nil
    · exact line900_ne_nil
    · exact line900_ne_nil
    · exact line900_ne_nil
    · exact line896_ne_nil
  exact ⟨hl, (c5_chunking_amended demo4500 2000).2.1 hl⟩

/-- C6: when an invocation throws an invalid-session error while a
resume token is held, processMessage removes the channel's stored
token, clears the in-memory sessionId, persists the mapping, and makes
exactly one retry invocation without a resume token; a second
invalid-session failure returns the classified error without any
further retry (the third supplied outcome is left unconsumed). -/
theorem c6_invalid_session_retry (st : Claude.ClaudeState) (m1 m2 : String)
    (d1 g1 d2 g2 : Option String) (o3 : Claude.CallOutcome) (s : String)
    (hs : st.sessionId = some s) (hsne : s ≠ "")
    (hconv : st.useConversationMode = true)
    (hm1 : Claude.invalidSessionErr m1 = true)
    (hm2 : Claude.invalidSessionErr m2 = true) :
    Claude.processMessage [.thrown m1 d1 g1, .thrown m2 d2 g2, o3] st =
      ⟨some ⟨Claude.classifyError m2 d2 g2, 0, true⟩,
       { st with sessionId := none,
                 sessions := Claude.eraseKey st.channelKey st.sessions,
                 persisted := Claude.eraseKey st.channelKey st.sessions },
       [some s, none], [o3]⟩ := by
  have ht : Claude.optTruthy st.sessionId = true := by
    simp [Claude.optTruthy, hs, bne_iff_ne, hsne]
  simp [Claude.processMessage, Claude.resumeArg, Claude.optTruthy, ht, hm1, hm2, hconv, hs,
    hsne]

theorem c6_witness :
    Claude.processMessage
      [.thrown "Invalid session" none none, .thrown "Invalid session" none none, .raw "x"]
      claudeStDemo =
      ⟨some ⟨"Invalid session", 0, true⟩, ⟨none, [], [], true, "general"⟩,
       [some "sess1", none], [.raw "x"]⟩ := by
  have h := c6_invalid_session_retry claudeStDemo "Invalid session" "Invalid session"
    none none none none (.raw "x") "sess1" rfl (by decide) rfl (by decide) (by decide)
  exact h.trans (by decide)

/-- C8: loadSessions on an absent session file (error code ENOENT)
yields the empty mapping without logging an error; on a file that exists
and parses, the parsed mapping is adopted, no error is logged, and the
in-memory sessionId is set from the current channel's entry when a
truthy one is present, and left unchanged when the channel has no
entry. -/
theorem c8_loadSessions_absent_and_parsed (ck : String) (sid0 : Option String) :
    (Base.loadSessions (.fsError "ENOENT") ck sid0 = ⟨[], sid0, false⟩) ∧
    (∀ m : List (String × String),
      (Base.loadSessions (.content (some m)) ck sid0).sessions = m ∧
      (Base.loadSessions (.content (some m)) ck sid0).loggedError = false ∧
      (∀ v, Base.lookupKey ck m = some v → v ≠ "" →
        (Base.loadSessions (.content (some m)) ck sid0).sessionId = some v) ∧
      (Base.lookupKey ck m = none →
        (Base.loadSessions (.content (some m)) ck sid0).sessionId = sid0)) := by
  refine ⟨by simp [Base.loadSessions], fun m => ⟨rfl, rfl, ?_, ?_⟩⟩
  · intro v hv hne
    simp [Base.loadSessions, hv, bne_iff_ne, hne]
  · intro hn
    simp [Base.loadSessions, hn]

theorem c8_witness :
    Base.loadSessions (.fsError "ENOENT") "general" none = ⟨[], none, false⟩ ∧
    (Base.loadSessions (.content (some [("general", "tok1")])) "general" none).sessionId =
      some "tok1" := by
  have h := c8_loadSessions_absent_and_parsed "general" none
  exact ⟨h.1, (h.2 [("general", "tok1")]).2.2.1 "tok1" (by decide) (by decide)⟩

/-- C10: with a mention filter configured, a polled message whose
author equals the filter value case-insensitively is skipped before
agent processing in both run loops: the step result is the skip action,
carrying no response, independently of the agent function (so the agent
is never consulted and nothing is posted or logged for the message). -/
theorem c10_author_filter_skip (f : String) (msg : Msg) (hf : f ≠ "")
    (ha : lowerStr msg.author = lowerStr f) :
    (∀ (t : Bool) (agent : Msg → Option String),
      Dispatch.discordRunStep t (some f) agent msg = .skippedFilter) ∧
    (∀ (t : Bool) (isOwn : Msg → Bool) (agent : Msg → Option String),
      isOwn msg = false →
      Dispatch.orchestratorStep t (some f) isOwn agent msg = .skippedFilter) := by
  constructor
  · intro t agent
    unfold Dispatch.discordRunStep
    simp [Dispatch.filterActive, bne_iff_ne, hf, ha]
  · intro t isOwn agent hown
    unfold Dispatch.orchestratorStep
    simp [hown, Dispatch.filterActive, bne_iff_ne, hf, ha]

theorem c10_witness :
    Dispatch.discordRunStep false (some "claude") (fun _ => some "resp") filterMsgDemo =
      .skippedFilter ∧
    Dispatch.orchestratorStep false (some "claude") (fun _ => false) (fun _ => some "resp")
      filterMsgDemo = .skippedFilter := by
  have h := c10_author_filter_skip "claude" filterMsgDemo (by decide) (by decide)
  exact ⟨h.1 false _, h.2 false _ _ rfl⟩

theorem c9_witness :
    lkaOk "Bot" (some "A") = true ∧
    lkaOk "Bot" ((getNewMessages ⟨none, some "A", true, "Bot", 3⟩ msgs5).2.lastKnownAuthor)
      = true :=
  ⟨by decide, c9_lastKnownAuthor_invariant ⟨none, some "A", true, "Bot", 3⟩ msgs5 (by decide)⟩

end DiscoAgent
